import Mathlib

/-!
Verification development for the raffle results service
(src/backend/core/services/_raffle_results_service.py).

The Python source is shallowly embedded: each method of
`RaffleResultsService` becomes a Lean function over an explicit store
state; the Web3 oracle becomes a function parameter; the unbounded
`while` loop of `_split_by_gas_limit` becomes a fuel-indexed recursion
(`none` meaning the loop has not returned within the given number of
iterations); Django's `transaction.atomic` becomes a boolean
`commit_ok` parameter selecting between an all-or-nothing write and a
failure that leaves the store untouched; a raised Python exception
becomes an `Except.error`.
-/

/-- A row of the Participant model: primary key, `address`, `poap_id`.
Python equality on Django model instances is primary-key equality; with
distinct primary keys the derived structural equality coincides.  The
service only compares addresses for equality and for the alphabetical
`order_by("address", ...)`, so an address is abstracted by its
alphabetical rank, a natural number (in examples: "A" = 0, "B" = 1). -/
structure Participant where
  id : Nat
  address : Nat
  poap_id : Nat
deriving DecidableEq, Repr

/-- A row of the ResultsTableEntry model: the participant and the final
rank `order` (the owning results table is implicit: the store holds a
single raffle). -/
structure ResultsTableEntry where
  participant : Participant
  order : Nat
deriving DecidableEq, Repr

/-- A row of the BlockData model (the owning raffle is implicit). -/
structure BlockData where
  gas_limit : Nat
  seed : Nat
  block_number : Nat
  order : Nat
deriving DecidableEq, Repr

/-- The raw block returned by the oracle (`w3.eth.getBlock`): the fields
`number` and `gasLimit` the service reads. -/
structure RawBlock where
  number : Nat
  gasLimit : Nat
deriving DecidableEq, Repr

/-- The durable store for one raffle: the raffle's `finalized` and
`one_address_one_vote` flags, its participants, whether its ResultsTable
row exists, the ResultsTableEntry rows and the BlockData rows. -/
structure Store where
  finalized : Bool
  one_address_one_vote : Bool
  participants : List Participant
  results_table_exists : Bool
  entries : List ResultsTableEntry
  block_data : List BlockData
deriving DecidableEq, Repr

/-- The oracle (`w3.eth.getBlock`): argument `some n` requests block `n`,
`none` requests the latest block; result `none` models a raised
`BlockNotFound`. -/
def Oracle : Type := Option Nat → Option RawBlock

/-- The flag `comparing_digits_identical` of `_split_by_gas_limit`,
threaded through the inner `for` loop: `prev` is
`prev_iteration_digit` (`none` = Python `None`).  The source guard is
`if prev_iteration_digit and prev_iteration_digit != poap_id_cmp_digit`,
so a previous digit of `0` (falsy in Python) never flips the flag. -/
def digits_identical_from (prev : Option Nat) : List Nat → Bool
  | [] => true
  | d :: rest =>
      if (match prev with
          | some pd => decide (pd ≠ 0) && decide (pd ≠ d)
          | none => false)
      then false
      else digits_identical_from (some d) rest

/-- `comparing_digits_identical` at the end of one `while` iteration of
`_split_by_gas_limit`, as a function of the digit sequence. -/
def digits_identical (ds : List Nat) : Bool :=
  digits_identical_from none ds

/-- The digit `math.floor(poap_id / order) % 10` a participant exposes at
significance `order`. -/
def cmp_digit (order : Nat) (p : Participant) : Nat :=
  p.poap_id / order % 10

/-- The participants appended to `eliminated_participants` during one
`while` iteration at significance `order`: those whose digit equals
`gas_limit % 10`, in pool order. -/
def matches_at (gas_limit order : Nat) (participants : List Participant) :
    List Participant :=
  participants.filter (fun p => decide (cmp_digit order p = gas_limit % 10))

/-- The `while not valid_split` loop of `_split_by_gas_limit`, indexed by
fuel.  One iteration computes the digits at significance `order`; if
`comparing_digits_identical` holds the accumulated matches are discarded
(`eliminated_participants = []`) and the loop retries at `order * 10`,
otherwise it returns the matches of this iteration.  `none` means the
source loop has not returned within `fuel` iterations (the source has no
bound at all). -/
def split_loop (gas_limit : Nat) (participants : List Participant) :
    Nat → Nat → Option (List Participant)
  | 0, _ => none
  | fuel + 1, order =>
      if digits_identical (participants.map (cmp_digit order))
      then split_loop gas_limit participants fuel (order * 10)
      else some (matches_at gas_limit order participants)

/-- `RaffleResultsService._split_by_gas_limit`.  The source returns
`None` for an empty pool, the pool itself for a singleton pool, and
otherwise enters the unbounded digit loop; here `none` covers both the
source's `None` and a loop still running after `fuel` iterations. -/
def _split_by_gas_limit (fuel : Nat) (gas_limit : Nat)
    (participants : List Participant) : Option (List Participant) :=
  if participants.isEmpty then none
  else if participants.length = 1 then some participants
  else split_loop gas_limit participants fuel 1

/-- The key `(address, poap_id)` of
`participants.order_by("address", "poap_id")`. -/
def addr_poap_le (a b : Participant) : Prop :=
  a.address < b.address ∨ (a.address = b.address ∧ a.poap_id ≤ b.poap_id)

instance : DecidableRel addr_poap_le := fun a b => by
  unfold addr_poap_le; infer_instance

/-- The key of `sorted(participants.all(), key=lambda p: p.poap_id)`. -/
def poap_le (a b : Participant) : Prop :=
  a.poap_id ≤ b.poap_id

instance : DecidableRel poap_le := fun a b => by
  unfold poap_le; infer_instance

/-- Keep the first occurrence per `address`: Postgres
`DISTINCT ON ("address")` on a list already sorted by
`("address", "poap_id")`.  `seen` accumulates the addresses already
emitted. -/
def distinct_on_address_from (seen : List Nat) :
    List Participant → List Participant
  | [] => []
  | p :: rest =>
      if seen.contains p.address then distinct_on_address_from seen rest
      else p :: distinct_on_address_from (p.address :: seen) rest

/-- `DISTINCT ON ("address")`, keeping the first row per address. -/
def distinct_on_address (ps : List Participant) : List Participant :=
  distinct_on_address_from [] ps

/-- The candidate pool of `_get_remaining_participants` before the
results-table filter: the raffle's participants, deduplicated by address
(keeping the lowest `poap_id` per address) when `one_address_one_vote`
is set, then sorted by `poap_id` ascending.  Python's `sorted` and the
database's `ORDER BY` are stable sorts, embedded as the stable
`List.insertionSort`. -/
def candidate_pool (st : Store) : List Participant :=
  let ps := if st.one_address_one_vote
            then distinct_on_address (st.participants.insertionSort addr_poap_le)
            else st.participants
  ps.insertionSort poap_le

/-- `RaffleResultsService._get_remaining_participants`: the participants
with no ResultsTableEntry, address-deduplicated when the raffle's
`one_address_one_vote` flag is set, sorted by `poap_id`.  A pure read of
the store. -/
def _get_remaining_participants (st : Store) : List Participant :=
  if st.participants.isEmpty then []
  else
    let fixed := st.entries.map (fun e => e.participant)
    (candidate_pool st).filter (fun p => !(fixed.contains p))

/-- The entry-building `for` loop of `_save_new_results_table_entries`:
one ResultsTableEntry per eliminated participant, `order` starting at
the given value and incremented per entry. -/
def build_entries (order : Nat) : List Participant → List ResultsTableEntry
  | [] => []
  | p :: rest => ⟨p, order⟩ :: build_entries (order + 1) rest

/-- `RaffleResultsService._save_new_results_table_entries`.  An empty
pool finalizes the raffle and returns `True`.  Otherwise the splitter
runs on `block_data.gas_limit`; a `none` block models the source's
`AttributeError` at `block_data.gas_limit` (the source never checks the
block for `None`), and a `none` split result models the unbounded loop
still running after `fuel` iterations.  The entry bulk-insert and the
BlockData save share one transaction: `commit_ok = true` applies both,
`commit_ok = false` models an aborted commit leaving the store
untouched. -/
def _save_new_results_table_entries (fuel : Nat) (commit_ok : Bool)
    (participants : List Participant) (block : Option BlockData)
    (st : Store) : Except String Bool × Store :=
  if participants.isEmpty then
    (.ok true, { st with finalized := true })
  else
    match block with
    | none => (.error "AttributeError", st)
    | some bd =>
      match _split_by_gas_limit fuel bd.gas_limit participants with
      | none => (.error "nontermination", st)
      | some eliminated =>
        let new_entries :=
          build_entries (participants.length - eliminated.length) eliminated
        if commit_ok then
          let st' := { st with entries := st.entries ++ new_entries,
                               block_data := st.block_data ++ [bd] }
          if participants.length = eliminated.length then
            (.ok true, { st' with finalized := true })
          else
            (.ok false, st')
        else
          (.error "StoreCommitFailure", st)

/-- `RaffleResultsService._get_block_data`: request block
`prev.block_number + 1` (or the latest block when there is no previous
BlockData row); `BlockNotFound` yields `none`, otherwise a BlockData
candidate with `gas_limit = seed = gasLimit`, the reported number, and
`order = prev.order + 1` (or `0`). -/
def _get_block_data (oracle : Oracle) (prev : Option BlockData) :
    Option BlockData :=
  match oracle (prev.map (fun pb => pb.block_number + 1)) with
  | none => none
  | some raw =>
      some { gas_limit := raw.gasLimit, seed := raw.gasLimit,
             block_number := raw.number,
             order := match prev with | some pb => pb.order + 1 | none => 0 }

/-- `BlockData.objects.filter(raffle=raffle).order_by("-order").first()`:
the stored BlockData row of maximal `order`. -/
def last_block_data (rows : List BlockData) : Option BlockData :=
  rows.foldl
    (fun acc b => match acc with
      | none => some b
      | some a => if a.order < b.order then some b else some a)
    none

/-- `RaffleResultsService.generate_next_result_step` (the AdvanceRound
entry point).  A finalized raffle short-circuits to `True`.  Otherwise
the last BlockData row is read, the oracle is consulted,
`ResultsTable.objects.get_or_create` materialises the results table row
(a store write that happens even when the oracle finds no block), the
remaining pool is resolved and the committer runs. -/
def generate_next_result_step (fuel : Nat) (oracle : Oracle)
    (commit_ok : Bool) (st : Store) : Except String Bool × Store :=
  if st.finalized then (.ok true, st)
  else
    let prev := last_block_data st.block_data
    let block := _get_block_data oracle prev
    let st' := { st with results_table_exists := true }
    let remaining := _get_remaining_participants st'
    _save_new_results_table_entries fuel commit_ok remaining block st'

instance : IsTotal Participant poap_le :=
  ⟨fun a b => Nat.le_total a.poap_id b.poap_id⟩

instance : IsTrans Participant poap_le :=
  ⟨fun _ _ _ h1 h2 => Nat.le_trans h1 h2⟩

/-- Pool of two participants with poap ids 1 and 2: the digits at
significance 1 differ, so the splitter accepts immediately. -/
def p_one : Participant := ⟨1, 0, 1⟩

/-- Second member of the two-element pool, poap id 2. -/
def p_two : Participant := ⟨2, 1, 2⟩

/-- A two-member pool split at the first significance. -/
def pool_12 : List Participant := [p_one, p_two]

/-- Participant with poap id 10: its units digit is 0, which Python's
truthiness test treats like `None`. -/
def q_ten : Participant := ⟨1, 0, 10⟩

/-- Participant with poap id 21. -/
def q_twentyone : Participant := ⟨2, 1, 21⟩

/-- Pool whose units digits are [0, 1]: genuinely non-uniform, but the
source's `if prev_iteration_digit` guard never fires on the 0. -/
def pool_c2 : List Participant := [q_ten, q_twentyone]

/-- Two participants sharing poap id 7 (duplicate ids): no significance
ever yields differing digits, so the source loop never exits. -/
def r_seven_a : Participant := ⟨1, 0, 7⟩

/-- Second participant with duplicate poap id 7. -/
def r_seven_b : Participant := ⟨2, 1, 7⟩

/-- Adversarial pool with duplicate poap ids. -/
def pool_dup : List Participant := [r_seven_a, r_seven_b]

/-- Oracle that raises `BlockNotFound` for every request. -/
def oracle_no_block : Oracle := fun _ => none

/-- Oracle returning block 100 with gas limit 5 for every request. -/
def oracle_block_100_5 : Oracle := fun _ => some ⟨100, 5⟩

/-- A non-finalized raffle with two participants (poap ids 1 and 2), no
ResultsTable row yet and no stored rounds. -/
def store_c3 : Store := ⟨false, false, [p_one, p_two], false, [], []⟩

/-- A non-finalized raffle with two participants, its ResultsTable row
already created, and no stored rounds. -/
def store_c5 : Store := ⟨false, false, [p_one, p_two], true, [], []⟩

/-- The raffle of the spec's one-address-one-vote example:
participants [(addr A, poap 5), (addr A, poap 2), (addr B, poap 9)]
with the flag set (addresses encoded A = 0, B = 1). -/
def store_c7 : Store := ⟨false, true, [⟨1, 0, 5⟩, ⟨2, 0, 2⟩, ⟨3, 1, 9⟩], true, [], []⟩

/-- An already finalized raffle. -/
def store_final : Store := ⟨true, false, [p_one], true, [⟨p_one, 0⟩], [⟨7, 7, 50, 0⟩]⟩

/-- A result of the splitter loop is the match list of some iteration,
hence a filter of the pool: a sub-sequence in original pool order. -/
theorem split_loop_sublist {gas_limit : Nat} {ps : List Participant} :
    ∀ {fuel m r}, split_loop gas_limit ps fuel m = some r → r.Sublist ps := by
  intro fuel
  induction fuel with
  | zero => intro m r h; simp [split_loop] at h
  | succ n ih =>
      intro m r h
      rw [split_loop] at h
      split at h
      · exact ih h
      · injection h with h'
        subst h'
        exact List.filter_sublist ps

/-- The flag stays `true` along a run of digits all equal to the
previous one. -/
theorem digits_identical_from_of_const {d : Nat} :
    ∀ {ds : List Nat}, (∀ x ∈ ds, x = d) →
      digits_identical_from (some d) ds = true := by
  intro ds
  induction ds with
  | nil => intro _; rfl
  | cons a rest ih =>
      intro h
      have ha : a = d := h a (by simp)
      subst ha
      have hrest := ih (fun x hx => h x (by simp [hx]))
      rw [digits_identical_from]
      simpa using hrest

/-- A constant digit sequence is judged identical by the source's
check. -/
theorem digits_identical_of_const {d : Nat} {ds : List Nat}
    (h : ∀ x ∈ ds, x = d) : digits_identical ds = true := by
  cases ds with
  | nil => rfl
  | cons a rest =>
      have ha : a = d := h a (by simp)
      subst ha
      have hrest :=
        @digits_identical_from_of_const a rest
          (fun x hx => h x (List.mem_cons_of_mem a hx))
      rw [digits_identical, digits_identical_from]
      simpa using hrest

/-- The splitter loop never returns the full pool: if every participant
matched, every digit would equal the split key's last digit, the digit
sequence would be constant, and the iteration would have been
rejected. -/
theorem split_loop_ne_full {gas_limit : Nat} {ps : List Participant} :
    ∀ {fuel m r}, split_loop gas_limit ps fuel m = some r → r ≠ ps := by
  intro fuel
  induction fuel with
  | zero => intro m r h; simp [split_loop] at h
  | succ n ih =>
      intro m r h
      rw [split_loop] at h
      split at h
      · exact ih h
      · rename_i hcond
        injection h with h'
        subst h'
        intro hfull
        apply hcond
        have hall : ∀ p ∈ ps, cmp_digit m p = gas_limit % 10 := by
          intro p hp
          have := (List.filter_eq_self.mp hfull) p hp
          simpa using this
        refine digits_identical_of_const (d := gas_limit % 10) ?_
        intro x hx
        rcases List.mem_map.mp hx with ⟨p, hp, rfl⟩
        exact hall p hp

/-- The match list depends on the split key only through its last
decimal digit. -/
theorem matches_at_congr_mod {g1 g2 : Nat} (h : g1 % 10 = g2 % 10)
    (m : Nat) (ps : List Participant) :
    matches_at g1 m ps = matches_at g2 m ps := by
  simp [matches_at, h]

/-- The splitter loop depends on the split key only through its last
decimal digit. -/
theorem split_loop_congr_mod {g1 g2 : Nat} (h : g1 % 10 = g2 % 10)
    (ps : List Participant) :
    ∀ fuel m, split_loop g1 ps fuel m = split_loop g2 ps fuel m := by
  intro fuel
  induction fuel with
  | zero => intro m; rfl
  | succ n ih =>
      intro m
      rw [split_loop, split_loop, matches_at_congr_mod h, ih]

/-- A two-element constant digit sequence is judged identical. -/
theorem digits_identical_pair (d : Nat) : digits_identical [d, d] = true := by
  simp [digits_identical, digits_identical_from]

/-- On the duplicate-id pool the digit sequence is constant at every
power-of-ten significance, so no amount of fuel makes the loop
return. -/
theorem split_loop_dup_none :
    ∀ fuel k, split_loop 3 pool_dup fuel (10 ^ k) = none := by
  intro fuel
  induction fuel with
  | zero => intro k; rfl
  | succ n ih =>
      intro k
      rw [split_loop]
      have hd : pool_dup.map (cmp_digit (10 ^ k))
          = [7 / 10 ^ k % 10, 7 / 10 ^ k % 10] := by
        simp [pool_dup, cmp_digit, r_seven_a, r_seven_b]
      rw [hd, digits_identical_pair]
      simp only [if_true]
      have hpow : 10 ^ k * 10 = 10 ^ (k + 1) := by ring
      rw [hpow]
      exact ih (k + 1)

/-- A splitter result is a sub-sequence of the pool. -/
theorem split_result_sublist {fuel gas_limit : Nat} {ps r : List Participant}
    (h : _split_by_gas_limit fuel gas_limit ps = some r) : r.Sublist ps := by
  rw [_split_by_gas_limit] at h
  split at h
  · simp at h
  · split at h
    · injection h with h'
      subst h'
      exact List.Sublist.refl ps
    · exact split_loop_sublist h

/-- One entry is built per eliminated participant. -/
theorem build_entries_length :
    ∀ (l : List Participant) (s : Nat), (build_entries s l).length = l.length := by
  intro l
  induction l with
  | nil => intro s; rfl
  | cons p rest ih => intro s; simp [build_entries, ih]

/-- The i-th built entry pairs the i-th eliminated participant with
rank `s + i`. -/
theorem build_entries_getElem :
    ∀ (l : List Participant) (s i : Nat),
      (build_entries s l)[i]?
        = (l[i]?).map (fun p => (⟨p, s + i⟩ : ResultsTableEntry)) := by
  intro l
  induction l with
  | nil => intro s i; simp [build_entries]
  | cons p rest ih =>
      intro s i
      cases i with
      | zero => simp [build_entries]
      | succ j =>
          have hs : s + 1 + j = s + (j + 1) := by omega
          simp [build_entries, ih, hs]

/-- The source's flag equals: every adjacent digit pair whose first
component is nonzero is an equal pair (a zero previous digit is falsy
in Python and never flips the flag). -/
theorem digits_identical_from_eq_all (p : Nat) :
    ∀ ds : List Nat,
      digits_identical_from (some p) ds
        = ((p :: ds).zip ds).all (fun ab => ab.1 == 0 || ab.1 == ab.2) := by
  intro ds
  induction ds generalizing p with
  | nil => simp [digits_identical_from]
  | cons d rest ih =>
      by_cases h0 : p = 0
      · simp [digits_identical_from, h0, ih]
      · by_cases hd : p = d
        · simp [digits_identical_from, h0, hd, ih]
        · simp [digits_identical_from, h0, hd]

/-- Adjacency characterization of `comparing_digits_identical`. -/
theorem digits_identical_eq_adjacent (ds : List Nat) :
    digits_identical ds
      = (ds.zip ds.tail).all (fun ab => ab.1 == 0 || ab.1 == ab.2) := by
  cases ds with
  | nil => rfl
  | cons d rest =>
      rw [digits_identical, digits_identical_from]
      simpa using digits_identical_from_eq_all d rest

/-- A raffle without participants has an empty candidate pool. -/
theorem candidate_pool_nil {st : Store} (h : st.participants = []) :
    candidate_pool st = [] := by
  cases hf : st.one_address_one_vote <;>
    simp [candidate_pool, h, hf, distinct_on_address, distinct_on_address_from]

/-- The candidate pool is sorted by `poap_id` ascending. -/
theorem candidate_pool_sorted (st : Store) :
    (candidate_pool st).Pairwise poap_le := by
  have h := List.sorted_insertionSort poap_le
    (if st.one_address_one_vote
     then distinct_on_address (st.participants.insertionSort addr_poap_le)
     else st.participants)
  simpa [candidate_pool, List.Sorted] using h

/-- Membership in the remaining pool: exactly the candidates with no
ResultsTableEntry. -/
theorem mem_remaining_iff (st : Store) (p : Participant) :
    p ∈ _get_remaining_participants st ↔
      p ∈ candidate_pool st
        ∧ p ∉ st.entries.map (fun e => e.participant) := by
  rw [_get_remaining_participants]
  split
  · rename_i hemp
    rw [candidate_pool_nil (List.isEmpty_iff.mp hemp)]
    simp
  · simp [List.mem_filter]

/-- The remaining pool is sorted by `poap_id` ascending. -/
theorem remaining_sorted (st : Store) :
    (_get_remaining_participants st).Pairwise poap_le := by
  rw [_get_remaining_participants]
  split
  · simp
  · exact List.Pairwise.filter _ (candidate_pool_sorted st)

/-- Claim C1, counterexample: for the pool [poap 1, poap 2] (size 2) and
split key 5, the Elimination Splitter accepts at significance 1 (digits
[1, 2] differ) but nobody's digit equals 5, so the eliminated subgroup
it returns is empty — refuting the claim that the eliminated subgroup is
never empty for a pool with more than one member. -/
theorem c1_counterexample :
    _split_by_gas_limit 1 5 pool_12 = some [] ∧ 1 < pool_12.length := by
  exact ⟨rfl, by decide⟩

/-- Claim C1, amended: whenever `_split_by_gas_limit` returns, the
eliminated subgroup is a sub-sequence of the pool (order preserved) and,
for a pool with more than one member, never the full pool — but it may
be empty; for a pool with exactly one member it returns that single
member as the sole eliminated entry. -/
theorem c1_split_shape : ∀ (fuel gas_limit : Nat) (ps r : List Participant),
    _split_by_gas_limit fuel gas_limit ps = some r →
    r.Sublist ps ∧ (ps.length = 1 → r = ps) ∧ (1 < ps.length → r ≠ ps) := by
  intro fuel gas_limit ps r h
  have hsub := split_result_sublist h
  rw [_split_by_gas_limit] at h
  by_cases hemp : ps.isEmpty = true
  · rw [if_pos hemp] at h
    simp at h
  · rw [if_neg hemp] at h
    by_cases hlen : ps.length = 1
    · rw [if_pos hlen] at h
      injection h with h'
      subst h'
      exact ⟨hsub, fun _ => rfl, fun h1 => absurd hlen (by omega)⟩
    · rw [if_neg hlen] at h
      exact ⟨hsub, fun h1 => absurd h1 hlen, fun _ => split_loop_ne_full h⟩

/-- Claim C1, witness: the amended theorem applied to the pool
[poap 1, poap 2] and split key 1, where the splitter eliminates exactly
[poap 1]. -/
theorem c1_split_shape_witness :
    ([p_one] : List Participant).Sublist pool_12
      ∧ (pool_12.length = 1 → [p_one] = pool_12)
      ∧ (1 < pool_12.length → [p_one] ≠ pool_12) :=
  c1_split_shape 1 1 pool_12 [p_one] rfl

/-- Claim C2, counterexample: for the pool [poap 10, poap 21] and split
key 1, the digits at significance 1 are [0, 1] — not all participants
share the same digit — yet the splitter does not accept at significance
1: Python's `if prev_iteration_digit` is false for the digit 0, so the
differing pair goes unnoticed, the matches at significance 1 (namely
[poap 21]) are discarded, and the splitter instead returns the matches
at significance 10 ([poap 10]). -/
theorem c2_counterexample :
    pool_c2.map (cmp_digit 1) = [0, 1]
    ∧ (0 : Nat) ≠ 1
    ∧ _split_by_gas_limit 2 1 pool_c2 = some [q_ten]
    ∧ matches_at 1 1 pool_c2 = [q_twentyone]
    ∧ _split_by_gas_limit 2 1 pool_c2 ≠ some (matches_at 1 1 pool_c2) := by
  exact ⟨rfl, by decide, rfl, rfl, by decide⟩

/-- Claim C2, amended: at each digit significance m the splitter accepts
(returning every match at m, in pool order) if and only if the source's
flag is false, and otherwise discards the matches and advances to
significance m*10; and that flag judges the digits identical unless some
adjacent digit pair has a nonzero first component differing from the
second (a zero digit never flips the flag, unlike the claimed
"not all participants share the same digit"). -/
theorem c2_acceptance : ∀ (gas_limit : Nat) (ps : List Participant) (fuel m : Nat),
    (digits_identical (ps.map (cmp_digit m)) = false →
       split_loop gas_limit ps (fuel + 1) m = some (matches_at gas_limit m ps))
    ∧ (digits_identical (ps.map (cmp_digit m)) = true →
       split_loop gas_limit ps (fuel + 1) m = split_loop gas_limit ps fuel (m * 10))
    ∧ digits_identical (ps.map (cmp_digit m))
        = ((ps.map (cmp_digit m)).zip (ps.map (cmp_digit m)).tail).all
            (fun ab => ab.1 == 0 || ab.1 == ab.2) := by
  intro gas_limit ps fuel m
  refine ⟨?_, ?_, digits_identical_eq_adjacent _⟩
  · intro h
    rw [split_loop, h]
    simp
  · intro h
    rw [split_loop, h]
    simp

/-- Claim C2, witness: the amended acceptance law applied at split key
1, pool [poap 1, poap 2], significance 1, where the digits [1, 2] are
judged non-identical and the splitter accepts. -/
theorem c2_acceptance_witness :
    split_loop 1 pool_12 1 1 = some (matches_at 1 1 pool_12) :=
  (c2_acceptance 1 pool_12 0 1).1 rfl

/-- Claim C4: the source contains no significance cap and no
NoValidSplit error.  On the adversarial pool of two participants sharing
poap id 7 the digit sequence is constant at every significance, so the
`while` loop never exits: for every iteration bound the embedded loop
has still not returned — the code loops indefinitely instead of raising
`NoValidSplit` as the claim (and the spec's required safeguard)
states. -/
theorem c4_loop_never_returns :
    ∀ fuel, _split_by_gas_limit fuel 3 pool_dup = none := by
  intro fuel
  have h := split_loop_dup_none fuel 0
  rw [pow_zero] at h
  rw [_split_by_gas_limit, if_neg (by decide), if_neg (by decide)]
  exact h

/-- Claim C4, witness: nine loop iterations on the duplicate-id pool
still yield no result. -/
theorem c4_loop_never_returns_witness :
    _split_by_gas_limit 9 3 pool_dup = none :=
  c4_loop_never_returns 9

/-- Claim C10: the Elimination Splitter's result depends on the split
key only through its last decimal digit — two keys congruent mod 10
yield identical results on every pool, at every iteration bound. -/
theorem c10_last_digit_only :
    ∀ (fuel g1 g2 : Nat) (ps : List Participant), g1 % 10 = g2 % 10 →
      _split_by_gas_limit fuel g1 ps = _split_by_gas_limit fuel g2 ps := by
  intro fuel g1 g2 ps h
  rw [_split_by_gas_limit, _split_by_gas_limit, split_loop_congr_mod h]

/-- Claim C10, witness: split keys 12 and 2 give the same result on the
pool [poap 1, poap 2]. -/
theorem c10_last_digit_only_witness :
    _split_by_gas_limit 1 12 pool_12 = _split_by_gas_limit 1 2 pool_12 :=
  c10_last_digit_only 1 12 2 pool_12 rfl

/-- Claim C6: for a pool and the eliminated subgroup the splitter
returned on it, the Round Committer builds exactly one ResultsTableEntry
per eliminated participant, in order, with rank values
start, start+1, ... where start = len(pool) - len(eliminated), so the
ranks are consecutive and, when anyone was eliminated, end at
len(pool) - 1. -/
theorem c6_entry_orders :
    ∀ (fuel gas_limit : Nat) (pool elim : List Participant),
      _split_by_gas_limit fuel gas_limit pool = some elim →
      (build_entries (pool.length - elim.length) elim).length = elim.length
      ∧ (∀ i : Nat,
          (build_entries (pool.length - elim.length) elim)[i]?
            = (elim[i]?).map
                (fun p => (⟨p, pool.length - elim.length + i⟩ : ResultsTableEntry)))
      ∧ (elim ≠ [] →
          ((build_entries (pool.length - elim.length) elim)[elim.length - 1]?).map
              (fun e => e.order)
            = some (pool.length - 1)) := by
  intro fuel gas_limit pool elim h
  have hle : elim.length ≤ pool.length := (split_result_sublist h).length_le
  refine ⟨build_entries_length elim _, fun i => build_entries_getElem elim _ i, ?_⟩
  intro hne
  have hpos : 0 < elim.length := List.length_pos.mpr hne
  rw [build_entries_getElem]
  have hidx : elim.length - 1 < elim.length := by omega
  rw [List.getElem?_eq_getElem hidx]
  simp only [Option.map_some']
  congr 1
  omega

/-- Claim C6, witness: the entry-order law at the pool [poap 1, poap 2]
with split key 1, eliminating [poap 1]: one entry, rank 1 = pool size
minus one. -/
theorem c6_entry_orders_witness :
    (build_entries (pool_12.length - ([p_one] : List Participant).length)
        [p_one]).length = ([p_one] : List Participant).length
    ∧ (∀ i : Nat,
        (build_entries (pool_12.length - ([p_one] : List Participant).length)
            [p_one])[i]?
          = (([p_one] : List Participant)[i]?).map
              (fun p =>
                (⟨p, pool_12.length - ([p_one] : List Participant).length + i⟩
                  : ResultsTableEntry)))
    ∧ (([p_one] : List Participant) ≠ [] →
        ((build_entries (pool_12.length - ([p_one] : List Participant).length)
              [p_one])[([p_one] : List Participant).length - 1]?).map
            (fun e => e.order)
          = some (pool_12.length - 1)) :=
  c6_entry_orders 1 1 pool_12 [p_one] rfl

/-- The address ordering key is total. -/
theorem addr_poap_le_total :
    ∀ a b : Participant, addr_poap_le a b ∨ addr_poap_le b a := by
  intro a b
  unfold addr_poap_le
  omega

/-- The address ordering key is transitive. -/
theorem addr_poap_le_trans :
    ∀ a b c : Participant,
      addr_poap_le a b → addr_poap_le b c → addr_poap_le a c := by
  intro a b c hab hbc
  unfold addr_poap_le at hab hbc ⊢
  omega

/-- The participants sorted by `("address", "poap_id")` are pairwise in
that order. -/
theorem sorted_addr_poap (l : List Participant) :
    (l.insertionSort addr_poap_le).Pairwise addr_poap_le := by
  haveI : IsTotal Participant addr_poap_le := ⟨addr_poap_le_total⟩
  haveI : IsTrans Participant addr_poap_le := ⟨fun a b c => addr_poap_le_trans a b c⟩
  exact List.sorted_insertionSort addr_poap_le l

/-- An element emitted by the deduplication pass comes from the input
and its address was not yet seen. -/
theorem mem_distinct_from :
    ∀ (l : List Participant) (seen : List Nat) (p : Participant),
      p ∈ distinct_on_address_from seen l →
      p ∈ l ∧ seen.contains p.address = false := by
  intro l
  induction l with
  | nil =>
      intro seen p hp
      simp [distinct_on_address_from] at hp
  | cons x rest ih =>
      intro seen p hp
      rw [distinct_on_address_from] at hp
      by_cases hc : seen.contains x.address = true
      · rw [if_pos hc] at hp
        rcases ih seen p hp with ⟨h1, h2⟩
        exact ⟨List.mem_cons_of_mem x h1, h2⟩
      · rw [if_neg hc] at hp
        rcases List.mem_cons.mp hp with hpx | hpd
        · subst hpx
          exact ⟨List.mem_cons_self _ _, by simpa using hc⟩
        · rcases ih (x.address :: seen) p hpd with ⟨h1, h2⟩
          rw [List.contains_cons] at h2
          rcases Bool.or_eq_false_iff.mp h2 with ⟨_, h4⟩
          exact ⟨List.mem_cons_of_mem x h1, h4⟩

/-- On an address-sorted input, a participant kept by the deduplication
pass has the lowest `poap_id` among input participants sharing its
address. -/
theorem distinct_from_min :
    ∀ (l : List Participant) (seen : List Nat),
      l.Pairwise addr_poap_le →
      ∀ p, p ∈ distinct_on_address_from seen l →
        ∀ q, q ∈ l → q.address = p.address → p.poap_id ≤ q.poap_id := by
  intro l
  induction l with
  | nil =>
      intro seen _ p hp
      simp [distinct_on_address_from] at hp
  | cons x rest ih =>
      intro seen hpair p hp q hq haddr
      have hx := (List.pairwise_cons.mp hpair).1
      have hrest := (List.pairwise_cons.mp hpair).2
      rw [distinct_on_address_from] at hp
      by_cases hc : seen.contains x.address = true
      · rw [if_pos hc] at hp
        rcases List.mem_cons.mp hq with hqx | hqr
        · exfalso
          subst hqx
          have hns := (mem_distinct_from rest seen p hp).2
          rw [← haddr] at hns
          rw [hns] at hc
          exact absurd hc (by decide)
        · exact ih seen hrest p hp q hqr haddr
      · rw [if_neg hc] at hp
        rcases List.mem_cons.mp hp with hpx | hpd
        · subst hpx
          rcases List.mem_cons.mp hq with hqx | hqr
          · subst hqx
            exact Nat.le_refl _
          · rcases hx q hqr with hlt | ⟨_, hle⟩
            · omega
            · exact hle
        · rcases List.mem_cons.mp hq with hqx | hqr
          · exfalso
            subst hqx
            have hns := (mem_distinct_from rest (q.address :: seen) p hpd).2
            rw [List.contains_cons, ← haddr] at hns
            simp at hns
          · exact ih (x.address :: seen) hrest p hpd q hqr haddr

/-- Every input address is represented in the deduplicated output
(unless already seen). -/
theorem distinct_from_covers :
    ∀ (l : List Participant) (seen : List Nat) (q : Participant),
      q ∈ l → seen.contains q.address = false →
      ∃ p, p ∈ distinct_on_address_from seen l ∧ p.address = q.address := by
  intro l
  induction l with
  | nil =>
      intro seen q hq _
      simp at hq
  | cons x rest ih =>
      intro seen q hq hns
      rw [distinct_on_address_from]
      by_cases hc : seen.contains x.address = true
      · rw [if_pos hc]
        rcases List.mem_cons.mp hq with hqx | hqr
        · exfalso
          subst hqx
          rw [hc] at hns
          exact absurd hns (by decide)
        · exact ih seen q hqr hns
      · rw [if_neg hc]
        by_cases hqx : q.address = x.address
        · exact ⟨x, List.mem_cons_self _ _, hqx.symm⟩
        · rcases List.mem_cons.mp hq with hq1 | hqr
          · exact absurd (by rw [hq1]) hqx
          · have hns' : (x.address :: seen).contains q.address = false := by
              rw [List.contains_cons, Bool.or_eq_false_iff]
              exact ⟨by simpa using hqx, hns⟩
            rcases ih (x.address :: seen) q hqr hns' with ⟨p, hp, haddr⟩
            exact ⟨p, List.mem_cons_of_mem x hp, haddr⟩

/-- With the one-address-one-vote flag set, each member of the candidate
pool has the lowest `poap_id` among the raffle's participants sharing
its address. -/
theorem candidate_pool_min (st : Store)
    (hf : st.one_address_one_vote = true) :
    ∀ p ∈ candidate_pool st, ∀ q ∈ st.participants,
      q.address = p.address → p.poap_id ≤ q.poap_id := by
  intro p hp q hq haddr
  rw [candidate_pool] at hp
  simp only [hf, if_true] at hp
  have hp' := (List.mem_insertionSort poap_le).mp hp
  exact distinct_from_min _ [] (sorted_addr_poap st.participants) p hp' q
    ((List.mem_insertionSort addr_poap_le).mpr hq) haddr

/-- With the one-address-one-vote flag set, every participant's address
is represented in the candidate pool. -/
theorem candidate_pool_covers (st : Store)
    (hf : st.one_address_one_vote = true) :
    ∀ q ∈ st.participants, ∃ p, p ∈ candidate_pool st ∧ p.address = q.address := by
  intro q hq
  have hq' : q ∈ st.participants.insertionSort addr_poap_le :=
    (List.mem_insertionSort addr_poap_le).mpr hq
  rcases distinct_from_covers _ [] q hq' rfl with ⟨p, hp, haddr⟩
  refine ⟨p, ?_, haddr⟩
  rw [candidate_pool]
  simp only [hf, if_true]
  exact (List.mem_insertionSort poap_le).mpr hp

/-- Claim C7: the Remaining-Pool Resolver returns exactly the candidates
(address-deduplicated when one_address_one_vote is set, keeping per
address the participant with the lowest poap id) that have no
ResultsTableEntry, sorted by poap id ascending; on the spec's example
[(A,5),(A,2),(B,9)] with the flag set it returns [(A,2),(B,9)]; a raffle
with no participants yields the empty list.  The resolver is a pure
function of the store: it performs no writes. -/
theorem c7_remaining_pool :
    (∀ (st : Store) (p : Participant),
        p ∈ _get_remaining_participants st ↔
          p ∈ candidate_pool st
            ∧ p ∉ st.entries.map (fun e => e.participant))
    ∧ (∀ st : Store, (_get_remaining_participants st).Pairwise poap_le)
    ∧ (∀ st : Store, st.one_address_one_vote = true →
        ∀ p ∈ candidate_pool st, ∀ q ∈ st.participants,
          q.address = p.address → p.poap_id ≤ q.poap_id)
    ∧ (∀ st : Store, st.one_address_one_vote = true →
        ∀ q ∈ st.participants,
          ∃ p, p ∈ candidate_pool st ∧ p.address = q.address)
    ∧ _get_remaining_participants store_c7 = [⟨2, 0, 2⟩, ⟨3, 1, 9⟩]
    ∧ (∀ st : Store, st.participants = [] →
        _get_remaining_participants st = []) := by
  refine ⟨mem_remaining_iff, remaining_sorted, candidate_pool_min,
    candidate_pool_covers, by decide, ?_⟩
  intro st h
  rw [_get_remaining_participants, if_pos (List.isEmpty_iff.mpr h)]

/-- Claim C7, witness: the resolver on a raffle with no participants
returns the empty list. -/
theorem c7_remaining_pool_witness :
    _get_remaining_participants ⟨false, false, [], false, [], []⟩ = [] :=
  c7_remaining_pool.2.2.2.2.2 ⟨false, false, [], false, [], []⟩ rfl

/-- Claim C3: the source does not return false on "no new block".  With
a BlockNotFound oracle and a non-finalized raffle holding two remaining
participants, `generate_next_result_step` first materialises the
ResultsTable row (a store write, via get_or_create) and then raises
AttributeError at `block_data.gas_limit` because `_get_block_data`'s
None return is never checked — instead of returning false with the store
unchanged as the claim states. -/
theorem c3_no_block_not_noop :
    generate_next_result_step 5 oracle_no_block true store_c3
      = (.error "AttributeError", { store_c3 with results_table_exists := true })
    ∧ (generate_next_result_step 5 oracle_no_block true store_c3).2
        ≠ store_c3 := by
  exact ⟨rfl, by decide⟩

/-- Claim C5, counterexample: one full run on the two-participant pool
[poap 1, poap 2] with a block of gas limit 5 commits the round's
BlockData row while creating zero ResultsTableEntry rows (the splitter
accepted a split with no matches), so a BlockData row exists with no
entry for its round — refuting "an entry for the round exists if and
only if the round's BlockData row does". -/
theorem c5_counterexample :
    generate_next_result_step 3 oracle_block_100_5 true store_c5
      = (.ok false, { store_c5 with block_data := [⟨5, 5, 100, 0⟩] })
    ∧ (generate_next_result_step 3 oracle_block_100_5 true store_c5).2.entries
        = [] := by
  exact ⟨rfl, rfl⟩

/-- Claim C5, amended: the new entries and the round's BlockData row are
committed in one atomic unit — a failed commit writes neither and leaves
the store unchanged, a successful commit appends both — but the round's
BlockData may commit with zero entries when the splitter eliminated no
one. -/
theorem c5_atomic_commit :
    ∀ (fuel : Nat) (commit_ok : Bool) (pool : List Participant)
      (bd : BlockData) (st : Store) (elim : List Participant),
      pool ≠ [] →
      _split_by_gas_limit fuel bd.gas_limit pool = some elim →
      (commit_ok = false →
        _save_new_results_table_entries fuel commit_ok pool (some bd) st
          = (.error "StoreCommitFailure", st))
      ∧ (commit_ok = true →
        (_save_new_results_table_entries fuel commit_ok pool (some bd) st).2.entries
          = st.entries ++ build_entries (pool.length - elim.length) elim
        ∧ (_save_new_results_table_entries fuel commit_ok pool (some bd) st).2.block_data
          = st.block_data ++ [bd]) := by
  intro fuel commit_ok pool bd st elim hpool hsplit
  have hemp : pool.isEmpty = false := by
    simp [List.isEmpty_iff, hpool]
  constructor
  · intro hc
    subst hc
    simp [_save_new_results_table_entries, hemp, hsplit]
  · intro hc
    subst hc
    by_cases hfin : pool.length = elim.length <;>
      simp [_save_new_results_table_entries, hemp, hsplit, hfin]

/-- Claim C5, witness: the atomic-commit law at the pool
[poap 1, poap 2] and a block with gas limit 1, where the splitter
eliminates [poap 1] and a successful commit appends one entry and the
BlockData row. -/
theorem c5_atomic_commit_witness :
    (_save_new_results_table_entries 1 true pool_12
        (some ⟨1, 1, 100, 0⟩) store_c5).2.entries
      = store_c5.entries
          ++ build_entries (pool_12.length - ([p_one] : List Participant).length)
               [p_one]
    ∧ (_save_new_results_table_entries 1 true pool_12
        (some ⟨1, 1, 100, 0⟩) store_c5).2.block_data
      = store_c5.block_data ++ [⟨1, 1, 100, 0⟩] :=
  (c5_atomic_commit 1 true pool_12 ⟨1, 1, 100, 0⟩ store_c5 [p_one]
    (by decide) rfl).2 rfl

/-- Claim C8: invoked with an empty pool, the Round Committer sets the
raffle's finalized flag, returns true, and changes nothing else: the
result store is the input store with only `finalized` set, so no
BlockData row and no ResultsTableEntry row is written. -/
theorem c8_empty_pool_finalizes :
    ∀ (fuel : Nat) (commit_ok : Bool) (block : Option BlockData) (st : Store),
      _save_new_results_table_entries fuel commit_ok [] block st
        = (.ok true, { st with finalized := true }) := by
  intro fuel commit_ok block st
  rfl

/-- Claim C8, witness: the empty-pool law at a concrete store. -/
theorem c8_empty_pool_finalizes_witness :
    _save_new_results_table_entries 0 false [] none store_c5
      = (.ok true, { store_c5 with finalized := true }) :=
  c8_empty_pool_finalizes 0 false none store_c5

/-- Claim C9: the finalized flag is terminal.  On a finalized raffle
`generate_next_result_step` returns true with the store untouched, for
every oracle (so the ledger is never read) and every commit outcome; and
no committer run ever clears a finalized flag that was true. -/
theorem c9_finalized_terminal :
    ∀ (fuel : Nat) (oracle : Oracle) (commit_ok : Bool)
      (pool : List Participant) (block : Option BlockData) (st : Store),
      (st.finalized = true →
        generate_next_result_step fuel oracle commit_ok st = (.ok true, st))
      ∧ (st.finalized = true →
        (_save_new_results_table_entries fuel commit_ok pool block st).2.finalized
          = true) := by
  intro fuel oracle commit_ok pool block st
  constructor
  · intro h
    rw [generate_next_result_step, if_pos h]
  · intro h
    simp only [_save_new_results_table_entries]
    repeat' split
    all_goals first | rfl | exact h

/-- Claim C9, witness: the terminal-state law at a finalized store. -/
theorem c9_finalized_terminal_witness :
    generate_next_result_step 2 oracle_no_block true store_final
        = (.ok true, store_final)
    ∧ (_save_new_results_table_entries 2 true [p_one] none store_final).2.finalized
        = true :=
  ⟨(c9_finalized_terminal 2 oracle_no_block true [p_one] none store_final).1 rfl,
   (c9_finalized_terminal 2 oracle_no_block true [p_one] none store_final).2 rfl⟩
